import Mathlib

/-!
Verification development for the streaming response normalization layer of a
desktop chat-assistant front-end.  The embedded code lives in
`src/renderer/src/providers/AiProvider/LocalLLMProvider.ts`,
`src/renderer/src/providers/AiProvider/OllamaProvider.ts` and
`src/renderer/src/aiCore/clients/openai/OllamaApiClient.ts`.
Text is modelled as `List Char`; JavaScript strings map to their character
sequences.  `JSON.parse` is an external platform primitive and is modelled as
an abstract parameter `p : Str → Option LLResp` wherever the code calls it.
-/

set_option autoImplicit false

abbrev Str := List Char

/-- Character-level whitespace test matching the characters JavaScript
`String.prototype.trim` removes for the ASCII inputs handled here
(space, tab, line feed, carriage return, vertical tab, form feed). -/
def isJsWs (c : Char) : Bool :=
  c = ' ' || c = '\t' || c = '\n' || c = '\r' || c = Char.ofNat 11 || c = Char.ofNat 12

/-- Models JavaScript `s.trim()`: drop whitespace from both ends. -/
def jsTrim (s : Str) : Str :=
  ((s.dropWhile isJsWs).reverse.dropWhile isJsWs).reverse

/-- Models JavaScript `s.includes(pat)`: substring containment. -/
def hasSubstr (pat : Str) : Str → Bool
  | [] => pat.isEmpty
  | c :: rest => pat.isPrefixOf (c :: rest) || hasSubstr pat rest

/-- Splits a buffer into the complete lines before each newline and the
trailing partial segment after the last newline.  `splitComplete s = (ls, b)`
corresponds to JavaScript `s.split('\n')` returning `ls ++ [b]`; it is also
the effect of the manual `indexOf('\n')` loop in `LocalLLMProvider.completions`
(lines 660-663), which removes one complete line at a time. -/
def splitComplete : Str → List Str × Str
  | [] => ([], [])
  | c :: cs =>
    let r := splitComplete cs
    if c = '\n' then ([] :: r.1, r.2)
    else
      match r.1 with
      | [] => ([], c :: r.2)
      | l :: ls => ((c :: l) :: ls, r.2)

/-- Rebuilds a buffer from unconsumed complete lines and the trailing partial
segment: inverse direction of `splitComplete` used when the line-processing
loop exits early via `break` and the unread text stays in the buffer. -/
def joinNl : List Str → Str → Str
  | [], r => r
  | l :: ls, r => l ++ '\n' :: joinNl ls r

/-- Case-flag-aware character comparison: case-insensitive when `ci` is true,
modelling a regular expression `i` flag. -/
def charEqCI (ci : Bool) (a b : Char) : Bool :=
  if ci then a.toLower = b.toLower else a = b

/-- Tests whether `pat` matches at the start of `s` under the case flag. -/
def startsWithCI (ci : Bool) : Str → Str → Bool
  | [], _ => true
  | _ :: _, [] => false
  | a :: as, b :: bs => charEqCI ci a b && startsWithCI ci as bs

/-- Scans forward for the first occurrence of `close` and returns the text
after it, or `none` when `close` never occurs.  This is the lazy
`[\s\S]*?` body of the thinking-tag regular expressions: the nearest closing
tag terminates the match. -/
def dropThroughClose (ci : Bool) (close : Str) : Str → Option Str
  | [] => none
  | c :: rest =>
    if startsWithCI ci close (c :: rest) then some (List.drop close.length (c :: rest))
    else dropThroughClose ci close rest

/-- Tries each `(open, close)` tag pair in order at the current position:
if an opening tag matches here and its closing tag occurs later, returns the
text after the closing tag.  Mirrors regular-expression alternation order. -/
def tryTagPairs (ci : Bool) : List (Str × Str) → Str → Option Str
  | [], _ => none
  | (o, cl) :: rest, s =>
    if startsWithCI ci o s then
      match dropThroughClose ci cl (List.drop o.length s) with
      | some rem => some rem
      | none => tryTagPairs ci rest s
    else tryTagPairs ci rest s

/-- Fuel-indexed scanner implementing a global lazy tag-removal regular
expression: at each position try the tag pairs in order; on a match skip the
whole delimited block, otherwise keep the character.  The fuel equals the
input length, which suffices because every step consumes at least one
character. -/
def stripTagsFuel (ci : Bool) (pairs : List (Str × Str)) : Nat → Str → Str
  | _, [] => []
  | 0, s => s
  | fuel + 1, c :: rest =>
    match tryTagPairs ci pairs (c :: rest) with
    | some rem => stripTagsFuel ci pairs fuel rem
    | none => c :: stripTagsFuel ci pairs fuel rest

/-- Removes every lazily-delimited tag block, scanning left to right. -/
def stripTags (ci : Bool) (pairs : List (Str × Str)) (s : Str) : Str :=
  stripTagsFuel ci pairs s.length s

/-- Embeds `LocalLLMProvider.filterThinkingContent` (LocalLLMProvider.ts
lines 424-427): remove every lazy `<thinking>...</thinking>` block
(case-sensitive, global) and trim.  The class declares a second method of the
same name later in the file, so at runtime this earlier definition is
shadowed; it is kept here because the specification cites it. -/
def llFilterThinkingRegex (content : Str) : Str :=
  jsTrim (stripTags false [("<thinking>".toList, "</thinking>".toList)] content)

/-- One iteration of the line loop of the second
`LocalLLMProvider.filterThinkingContent` (LocalLLMProvider.ts lines 944-957):
a line containing `<think>` sets the suppressing flag and `continue`s —
skipping both the output append and the closing-tag check; otherwise the line
is emitted (with a newline) when not suppressing, and a line containing
`</think>` clears the flag. -/
def llFilterLinesGo : List Str → Bool → Str
  | [], _ => []
  | line :: ls, thinking =>
    if hasSubstr "<think>".toList line then llFilterLinesGo ls true
    else
      let out := if thinking then [] else line ++ ['\n']
      let th' := if hasSubstr "</think>".toList line then false else thinking
      out ++ llFilterLinesGo ls th'

/-- Embeds the second `LocalLLMProvider.filterThinkingContent`
(LocalLLMProvider.ts lines 937-960): split on newlines, run the line loop
with the suppressing flag initially false, and trim the result.  Because the
class declares `filterThinkingContent` twice, this later definition is the
one `handleStreamLine` actually invokes at runtime. -/
def llFilterThinkingLines (content : Str) : Str :=
  let r := splitComplete content
  jsTrim (llFilterLinesGo (r.1 ++ [r.2]) false)

/-- Embeds `OllamaProvider.filterThinkingContent` (OllamaProvider.ts lines
430-436): empty input yields a single space; otherwise remove every lazy
`<thinking>`, `<think>` and `<translate_input>` block (case-insensitive,
global), trim, and fall back to a single space when the result is empty. -/
def ollamaFilterThinkingContent (content : Str) : Str :=
  if content = [] then " ".toList
  else
    let t := jsTrim (stripTags true
      [("<thinking>".toList, "</thinking>".toList),
       ("<think>".toList, "</think>".toList),
       ("<translate_input>".toList, "</translate_input>".toList)] content)
    if t = [] then " ".toList else t

/-- One chunk of the incremental thinking filter inside
`LocalLLMProvider.translate` (LocalLLMProvider.ts lines 880-899): a chunk
containing `<think>` raises the suppressing flag before the append check, the
chunk is appended to the visible output only while the flag is down, and a
chunk containing `</think>` lowers the flag after the append check. -/
def translateStep (st : Bool × Str) (content : Str) : Bool × Str :=
  let th1 := if hasSubstr "<think>".toList content then true else st.1
  let acc := if th1 then st.2 else st.2 ++ content
  let th2 := if hasSubstr "</think>".toList content then false else th1
  (th2, acc)

/-- Visible output of the incremental `translate` thinking filter over a
sequence of content chunks, starting outside any thinking block. -/
def translateFilter (chunks : List Str) : Str :=
  (chunks.foldl translateStep (false, [])).2

/-- Unicode replacement character U+FFFD, emitted by a text decoder for
malformed byte sequences. -/
def replChar : Char := Char.ofNat 0xFFFD

/-- Length in bytes of a UTF-8 sequence with the given lead byte (only called
with leads in the range 0xC2-0xF4). -/
def utf8SeqLen (lead : Nat) : Nat :=
  if lead ≤ 0xDF then 2 else if lead ≤ 0xEF then 3 else 4

/-- Valid range test for the next continuation byte of a UTF-8 sequence,
including the restricted second-byte ranges after the leads 0xE0, 0xED, 0xF0
and 0xF4 mandated by the WHATWG decoding algorithm. -/
def utf8ContOk (lead : Nat) (conts : List Nat) (b : Nat) : Bool :=
  if conts.isEmpty then
    if lead = 0xE0 then 0xA0 ≤ b && b ≤ 0xBF
    else if lead = 0xED then 0x80 ≤ b && b ≤ 0x9F
    else if lead = 0xF0 then 0x90 ≤ b && b ≤ 0xBF
    else if lead = 0xF4 then 0x80 ≤ b && b ≤ 0x8F
    else 0x80 ≤ b && b ≤ 0xBF
  else 0x80 ≤ b && b ≤ 0xBF

/-- Code point assembled from a complete UTF-8 byte sequence. -/
def utf8Assemble : List Nat → Char
  | [a] => Char.ofNat a
  | [a, b] => Char.ofNat ((a - 0xC0) * 0x40 + (b - 0x80))
  | [a, b, c] => Char.ofNat ((a - 0xE0) * 0x1000 + (b - 0x80) * 0x40 + (c - 0x80))
  | [a, b, c, d] =>
    Char.ofNat ((a - 0xF0) * 0x40000 + (b - 0x80) * 0x1000 + (c - 0x80) * 0x40 + (d - 0x80))
  | _ => replChar

/-- Decoder step on one byte starting from an empty pending state. -/
def utf8StepEmpty (b : Nat) : List Char × List Nat :=
  if b ≤ 0x7F then ([Char.ofNat b], [])
  else if 0xC2 ≤ b && b ≤ 0xF4 then ([], [b])
  else ([replChar], [])

/-- Decoder step of the modelled `TextDecoder` state machine: the state is
the pending incomplete byte sequence.  An invalid continuation byte emits a
replacement character and reprocesses the byte from the empty state. -/
def utf8Step (st : List Nat) (b : Nat) : List Char × List Nat :=
  match st with
  | [] => utf8StepEmpty b
  | lead :: conts =>
    if utf8ContOk lead conts b then
      let seq := (lead :: conts) ++ [b]
      if seq.length = utf8SeqLen lead then ([utf8Assemble seq], []) else ([], seq)
    else
      let r := utf8StepEmpty b
      (replChar :: r.1, r.2)

/-- Streaming decode of a byte chunk: fold the decoder step over the bytes,
carrying the pending state across chunk boundaries.  Models
`decoder.decode(value, ...)` with the stream flag set, as used in
`OllamaApiClient.createCompletions` (OllamaApiClient.ts line 110). -/
def utf8DecStream (st : List Nat) : List Nat → List Char × List Nat
  | [] => ([], st)
  | b :: bs =>
    let r1 := utf8Step st b
    let r2 := utf8DecStream r1.2 bs
    (r1.1 ++ r2.1, r2.2)

/-- Non-streaming decode of a byte chunk: start from the empty state and
flush at the end, so a trailing incomplete sequence becomes a replacement
character.  Models `decoder.decode(value)` without the stream flag, as used
in `LocalLLMProvider.completions` (LocalLLMProvider.ts line 656). -/
def utf8DecFull (bytes : List Nat) : List Char :=
  let r := utf8DecStream [] bytes
  r.1 ++ (if r.2 = [] then [] else [replChar])

/-- State of a byte-fed line reassembler: the text decoder's pending bytes,
the complete lines produced so far, and the partial trailing line. -/
structure ReasmSt where
  dec : List Nat
  lines : List Str
  buf : Str
deriving DecidableEq

/-- Feeds one byte chunk to the OllamaApiClient reassembler
(OllamaApiClient.ts lines 110-112): streaming-decode the bytes, append to the
buffer, split off all complete lines and keep the last partial segment. -/
def olFeed (st : ReasmSt) (bytes : List Nat) : ReasmSt :=
  let d := utf8DecStream st.dec bytes
  let r := splitComplete (st.buf ++ d.1)
  ⟨d.2, st.lines ++ r.1, r.2⟩

/-- Runs the OllamaApiClient reassembler over a whole chunk sequence. -/
def olReassemble (chunks : List (List Nat)) : ReasmSt :=
  chunks.foldl olFeed ⟨[], [], []⟩

/-- Feeds one byte chunk to the LocalLLMProvider reassembler
(LocalLLMProvider.ts lines 656-663): each chunk is decoded independently
without the stream flag, then appended to the buffer and split into lines. -/
def llFeed (st : ReasmSt) (bytes : List Nat) : ReasmSt :=
  let cs := utf8DecFull bytes
  let r := splitComplete (st.buf ++ cs)
  ⟨[], st.lines ++ r.1, r.2⟩

/-- Runs the LocalLLMProvider reassembler over a whole chunk sequence. -/
def llReassemble (chunks : List (List Nat)) : ReasmSt :=
  chunks.foldl llFeed ⟨[], [], []⟩

/-- Relevant fields of a decoded `LocalLLMResponse` record
(LocalLLMProvider.ts lines 71-101): the chat-style `message.content`, the
legacy `response` text, the `error` string and the `done` flag.  A field is
`none` when absent from the JSON object. -/
structure LLResp where
  message : Option Str
  response : Option Str
  error : Option Str
  done : Option Bool
deriving DecidableEq

/-- Truthiness of `data.error` in JavaScript: present and non-empty. -/
def errTruthy (r : LLResp) : Bool :=
  match r.error with
  | some e => !e.isEmpty
  | none => false

/-- Truthiness of `data.done`: present and true. -/
def doneTruthy (r : LLResp) : Bool :=
  r.done = some true

/-- Inline error notice text emitted by `completions` for a record carrying a
server-reported error field (LocalLLMProvider.ts lines 683 and 702). -/
def errNotice (r : LLResp) : Str :=
  "\n\n[".toList ++ "错误: ".toList ++ r.error.getD [] ++ "]".toList

/-- One consumer callback invocation `onResponse(text, isComplete)`. -/
abbrev Call := Str × Bool

/-- Embeds `LocalLLMProvider.handleStreamLine` (LocalLLMProvider.ts lines
436-477).  `p` models `JSON.parse` restricted to one line: `none` when the
parse throws.  Returns the callback invocations made, the `processed` flag
and the `tokens` count.  A blank line and an unparseable line return without
events; a record with a truthy `error` throws internally, which the local
catch turns into the same silent result; a truthy `done` emits the completion
call; otherwise non-empty `message.content` is passed through the thinking
filter and, when the filtered text is non-empty, emitted with a single
leading space on the first processed chunk, counting its full length as
tokens. -/
def handleStreamLine (p : Str → Option LLResp) (line : Str) (isFirstChunk : Bool) :
    List Call × Bool × Nat :=
  if jsTrim line = [] then ([], false, 0)
  else
    match p line with
    | none => ([], false, 0)
    | some r =>
      if errTruthy r then ([], false, 0)
      else if doneTruthy r then ([([], true)], true, 0)
      else
        match r.message with
        | some content =>
          if content = [] then ([], false, 0)
          else
            let fc := llFilterThinkingLines content
            if fc = [] then ([], false, 0)
            else
              let t := if isFirstChunk then ' ' :: fc else fc
              ([(t, false)], true, t.length)
        | none => ([], false, 0)

/-- Processes the complete lines extracted from the buffer, mirroring the
inner `while (buffer.includes('\n'))` loop of `LocalLLMProvider.completions`
(LocalLLMProvider.ts lines 660-689): each line goes through
`handleStreamLine` (updating the first-chunk flag and the token count when
processed), then the line is re-parsed — a truthy `done` breaks out of the
loop leaving the remaining lines unconsumed, and a truthy `error` emits the
inline error notice.  Returns the callback invocations, the final first-chunk
flag and token count, and the lines left unconsumed by a `break`. -/
def procLineList (p : Str → Option LLResp) :
    List Str → Bool → Nat → List Call × Bool × Nat × List Str
  | [], f, t => ([], f, t, [])
  | line :: ls, f, t =>
    let h := handleStreamLine p line f
    let f' := if h.2.1 then false else f
    let t' := if h.2.1 then t + h.2.2 else t
    match p line with
    | some r =>
      if doneTruthy r then (h.1, f', t', ls)
      else
        let extra := if errTruthy r then [(errNotice r, false)] else []
        let rest := procLineList p ls f' t'
        (h.1 ++ extra ++ rest.1, rest.2)
    | none =>
      let rest := procLineList p ls f' t'
      (h.1 ++ rest.1, rest.2)

/-- Mutable per-stream state of `LocalLLMProvider.completions`: the partial
line buffer, the `isFirstChunk` flag and the running `totalTokens` count. -/
structure DrvSt where
  buffer : Str
  isFirstChunk : Bool
  totalTokens : Nat
deriving DecidableEq

/-- Processes one decoded text chunk: append to the buffer, consume the
complete lines, and rebuild the buffer from whatever a `done`-break left
unconsumed plus the trailing partial line. -/
def procChunk (p : Str → Option LLResp) (st : DrvSt) (chunk : Str) : List Call × DrvSt :=
  let sp := splitComplete (st.buffer ++ chunk)
  let r := procLineList p sp.1 st.isFirstChunk st.totalTokens
  (r.1, ⟨joinNl r.2.2.2 sp.2, r.2.1, r.2.2.1⟩)

/-- One outcome of `reader.read()`: a decoded text chunk, or a thrown error
(transport failure or a cancellation observed during the read).  The stream
ends normally when the list of read events is exhausted. -/
inductive ReadEv
  | chunk (s : Str)
  | fail (msg : Str)
deriving DecidableEq

/-- Runs the read loop of `LocalLLMProvider.completions` (lines 646-690):
each chunk is appended and processed; a thrown read error aborts the loop and
is rethrown.  Returns the callback invocations, the final driver state and
the error, if one was thrown. -/
def runReads (p : Str → Option LLResp) : List ReadEv → DrvSt → List Call × DrvSt × Option Str
  | [], st => ([], st, none)
  | .chunk s :: rest, st =>
    let r := procChunk p st s
    let r2 := runReads p rest r.2
    (r.1 ++ r2.1, r2.2)
  | .fail m :: _, st => ([], st, some m)

/-- Embeds the trailing-buffer handling of `LocalLLMProvider.completions`
(lines 693-708): when the remaining buffer is non-blank, parse it; a truthy
legacy `response` field is emitted as-is (its length added to the token
count), and a truthy `error` field emits the inline notice and then throws —
but the throw is swallowed by the surrounding catch, which only logs.
Returns the callback invocations and the token increment. -/
def finalStep (p : Str → Option LLResp) (st : DrvSt) : List Call × Nat :=
  if jsTrim st.buffer = [] then ([], 0)
  else
    match p st.buffer with
    | none => ([], 0)
    | some r =>
      let respCalls :=
        match r.response with
        | some resp => if resp = [] then ([], 0) else ([(resp, false)], resp.length)
        | none => (([] : List Call), 0)
      let errCalls := if errTruthy r then [(errNotice r, false)] else []
      (respCalls.1 ++ errCalls, respCalls.2)

/-- Outcome of the outbound `fetch`: a rejection (network failure, or an
abort observed during the fetch, already mapped to its message), or a
response with its HTTP success flag, status code, error body text, and the
sequence of body read outcomes. -/
inductive FetchOut
  | netErr (msg : Str)
  | resp (ok : Bool) (status : Nat) (errorText : Str) (reads : List ReadEv)
deriving DecidableEq

/-- User-facing message synthesized for a non-success HTTP status
(LocalLLMProvider.ts lines 589-598): a body containing `model not found`
maps to a pull hint, then statuses 404 and 500 map to fixed messages,
otherwise the generic message carrying the status and body text. -/
def friendlyErr (status : Nat) (errorText modelId : Str) : Str :=
  if hasSubstr "model not found".toList errorText then
    "模型 \"".toList ++ modelId ++ "\" 未找到。请使用 \"ollama pull ".toList ++ modelId
      ++ "\" 命令下载该模型。".toList
  else if status = 404 then
    "API端点不存在。请确保Ollama服务正在运行且API路径正确。".toList
  else if status = 500 then
    "服务器内部错误。请检查Ollama服务日志以获取更多信息。".toList
  else
    "本地LLM API错误 (".toList ++ (toString status).toList ++ "): ".toList ++ errorText

/-- Embeds `LocalLLMProvider.completions` (LocalLLMProvider.ts lines
523-733) as the full sequence of `onResponse` invocations for one request.
A fetch rejection reaches the outer catch, which emits one terminal error
call.  A non-success status emits the friendly error terminally, then throws
to the outer catch which emits a second terminal error call; the body reads
are never consumed.  Otherwise the read loop runs; on normal exhaustion the
trailing buffer is handled and the finally block emits the terminal
completion call; a thrown read error passes through the finally block (one
terminal completion call) and then the outer catch (one terminal error
call).  The 15-second stall timer only emits time-driven advisory notices
and is outside this untimed model. -/
def completionsModel (p : Str → Option LLResp) (modelId : Str) (fo : FetchOut) : List Call :=
  match fo with
  | .netErr m => [("Error: ".toList ++ m, true)]
  | .resp ok status errorText reads =>
    if ok then
      let r := runReads p reads ⟨[], true, 0⟩
      match r.2.2 with
      | none => r.1 ++ (finalStep p r.2.1).1 ++ [([], true)]
      | some m => r.1 ++ [([], true), ("Error: ".toList ++ m, true)]
    else
      let f := friendlyErr status errorText modelId
      [("错误: ".toList ++ f, true), ("Error: ".toList ++ f, true)]

/-- An annotation object attached to a chunk or its message; only the `type`
field is inspected by the detection code. -/
structure Anno where
  ty : Str
deriving DecidableEq

/-- The `message` object of a raw chunk: its text content and optional
annotations.  Either field is `none` when absent. -/
structure WsMsg where
  content : Option Str
  annos : Option (List Anno)
deriving DecidableEq

/-- Relevant fields of a raw provider chunk as inspected by
`OllamaApiClient.getResponseChunkTransformer` (OllamaApiClient.ts lines
240-387): the message object, chunk-level annotations, the citation list,
the Zhipu `web_search` payload, the Hunyuan `search_info.search_results`
payload (the intermediate `search_info` object collapsed to its only
inspected field), and the truthiness of `done`.  Payload lists model JSON
arrays; `some []` is an empty array, which is truthy in JavaScript. -/
structure WsChunk where
  message : Option WsMsg
  annos : Option (List Anno)
  citations : Option (List Str)
  webSearch : Option (List Str)
  searchResults : Option (List Str)
  done : Bool
deriving DecidableEq

/-- Source tag attached to collected web-search results
(the `WebSearchSource` enumeration values used in this client). -/
inductive WsSource
  | openai
  | grok
  | perplexity
  | openrouter
  | zhipu
  | hunyuan
deriving DecidableEq

/-- Results payload of a collected web-search event, tagged by the shape it
was extracted from. -/
inductive WsResults
  | fromAnnos (l : List Anno)
  | fromCitations (l : List Str)
  | fromWebSearch (l : List Str)
  | fromSearchResults (l : List Str)
deriving DecidableEq

/-- Models the JavaScript `a || b` fallback for object and array values:
only a missing value falls through. -/
def jsOr {α : Type} : Option α → Option α → Option α
  | some a, _ => some a
  | none, b => b

/-- Detection predicate of the native OpenAI annotation rule:
`annotations && annotations.length > 0 && annotations[0].type === 'url_citation'`,
where `annotations` is the message-level list falling back to the chunk-level
list. -/
def annPred (c : WsChunk) (msg : WsMsg) : Bool :=
  match jsOr msg.annos c.annos with
  | some (a :: _) => a.ty = "url_citation".toList
  | _ => false

/-- Embeds `collectWebSearchData` (OllamaApiClient.ts lines 243-335): when
web-search data was already collected, return nothing; otherwise try the
native annotation rule, then the Grok, Perplexity and OpenRouter citation
rules, then the Zhipu and Hunyuan web-search shapes, in that order; the
provider id gates each provider-specific rule and the first matching rule
supplies the results and the source tag. -/
def collectWebSearchData (pid : Str) (collected : Bool) (c : WsChunk) (msg : WsMsg) :
    Option (WsResults × WsSource) :=
  if collected then none
  else if annPred c msg then
    some (.fromAnnos ((jsOr msg.annos c.annos).getD []), .openai)
  else if pid = "grok".toList && c.citations.isSome then
    some (.fromCitations (c.citations.getD []), .grok)
  else if pid = "perplexity".toList && c.citations.isSome
      && (c.citations.getD []).length > 0 then
    some (.fromCitations (c.citations.getD []), .perplexity)
  else if pid = "openrouter".toList && c.citations.isSome
      && (c.citations.getD []).length > 0 then
    some (.fromCitations (c.citations.getD []), .openrouter)
  else if pid = "zhipu".toList && c.webSearch.isSome then
    some (.fromWebSearch (c.webSearch.getD []), .zhipu)
  else if pid = "hunyuan".toList && c.searchResults.isSome then
    some (.fromSearchResults (c.searchResults.getD []), .hunyuan)
  else none

/-- Normalized events enqueued by the response chunk transformer. -/
inductive WsEvt
  | webSearchComplete (results : WsResults) (src : WsSource)
  | textDelta (text : Str)
  | llmComplete
deriving DecidableEq

/-- Embeds the `transform` callback of `getResponseChunkTransformer`
(OllamaApiClient.ts lines 337-386) for one chunk: a chunk without a message
produces nothing; otherwise web-search data is collected at most once and
enqueued, and the message content is enqueued as a text delta — followed by
the completion event when `done` is truthy.  Returns the events and the
updated has-been-collected flag. -/
def transformChunk (pid : Str) (collected : Bool) (c : WsChunk) : List WsEvt × Bool :=
  match c.message with
  | none => ([], collected)
  | some msg =>
    let ws := collectWebSearchData pid collected c msg
    let collected' := collected || ws.isSome
    let wsEvts := match ws with
      | some rs => [WsEvt.webSearchComplete rs.1 rs.2]
      | none => []
    let content := msg.content.getD []
    if c.done then (wsEvts ++ [WsEvt.textDelta content, WsEvt.llmComplete], collected')
    else (wsEvts ++ [WsEvt.textDelta content], collected')

/-- Runs the transformer over a chunk sequence from the given flag state. -/
def runTransformAux (pid : Str) (collected : Bool) : List WsChunk → List WsEvt
  | [] => []
  | c :: cs =>
    let r := transformChunk pid collected c
    r.1 ++ runTransformAux pid r.2 cs

/-- Event stream produced by the transformer over a whole response: one
transformer instance starts with the has-been-collected flag down. -/
def runTransform (pid : Str) (chunks : List WsChunk) : List WsEvt :=
  runTransformAux pid false chunks

/-- Counts the web-search-complete events in an event stream. -/
def countWs (evts : List WsEvt) : Nat :=
  evts.countP fun e =>
    match e with
    | .webSearchComplete _ _ => true
    | _ => false

/-- Specification-side detection rule: a predicate over provider id, chunk
and message, a results extractor and the fixed source tag. -/
structure WsRule where
  pred : Str → WsChunk → WsMsg → Bool
  extract : WsChunk → WsMsg → WsResults
  src : WsSource

/-- Specification-side ordered rule table, written from the specification's
words: native citation markers first, then the Grok, Perplexity and
OpenRouter citation shapes, then the Zhipu and Hunyuan web-search-result
shapes, each rule carrying its source tag. -/
def wsSpecRules : List WsRule :=
  [⟨fun _ c msg => annPred c msg,
    fun c msg => .fromAnnos ((jsOr msg.annos c.annos).getD []), .openai⟩,
   ⟨fun pid c _ => pid = "grok".toList && c.citations.isSome,
    fun c _ => .fromCitations (c.citations.getD []), .grok⟩,
   ⟨fun pid c _ => pid = "perplexity".toList && c.citations.isSome
      && (c.citations.getD []).length > 0,
    fun c _ => .fromCitations (c.citations.getD []), .perplexity⟩,
   ⟨fun pid c _ => pid = "openrouter".toList && c.citations.isSome
      && (c.citations.getD []).length > 0,
    fun c _ => .fromCitations (c.citations.getD []), .openrouter⟩,
   ⟨fun pid c _ => pid = "zhipu".toList && c.webSearch.isSome,
    fun c _ => .fromWebSearch (c.webSearch.getD []), .zhipu⟩,
   ⟨fun pid c _ => pid = "hunyuan".toList && c.searchResults.isSome,
    fun c _ => .fromSearchResults (c.searchResults.getD []), .hunyuan⟩]

/-- First-match evaluation of the specification-side rule table. -/
def specFirstMatch (pid : Str) (c : WsChunk) (msg : WsMsg) : Option (WsResults × WsSource) :=
  (wsSpecRules.find? fun r => r.pred pid c msg).map fun r => (r.extract c msg, r.src)

/-- Concrete stream line: a chat-completion record whose `done` flag is true
(the braces of the JSON text are written with hexadecimal escapes). -/
def lineDone : Str := "\x7b\"done\":true\x7d".toList

/-- Concrete stream line that is not valid JSON. -/
def lineBad : Str := "not json".toList

/-- Concrete stream line: a record carrying only a server-reported error. -/
def lineErrBoom : Str := "\x7b\"error\":\"boom\"\x7d".toList

/-- Concrete stream line: a record carrying a short server-reported error. -/
def lineErrE : Str := "\x7b\"error\":\"e\"\x7d".toList

/-- Concrete stream line: a chat record with content and a false done flag. -/
def lineMsgHi : Str :=
  "\x7b\"message\":\x7b\"content\":\"hi\"\x7d,\"done\":false\x7d".toList

/-- Decoded record of `lineDone`. -/
def recDone : LLResp := ⟨none, none, none, some true⟩

/-- Decoded record of `lineErrBoom`. -/
def recErrBoom : LLResp := ⟨none, none, some "boom".toList, none⟩

/-- Decoded record of `lineErrE`. -/
def recErrE : LLResp := ⟨none, none, some "e".toList, none⟩

/-- Decoded record of `lineMsgHi`. -/
def recMsgHi : LLResp := ⟨some "hi".toList, none, none, some false⟩

/-- Concrete model of `JSON.parse` on the sample lines above: every other
line fails to parse. -/
def pFix (s : Str) : Option LLResp :=
  if s = lineDone then some recDone
  else if s = lineErrBoom then some recErrBoom
  else if s = lineErrE then some recErrE
  else if s = lineMsgHi then some recMsgHi
  else none

/-- Holds of a parse outcome that can neither stop the line loop nor emit an
inline error notice: either the parse failed, or the record has a non-true
done flag and no truthy error field. -/
def inertOpt : Option LLResp → Bool
  | none => true
  | some q => !doneTruthy q && !errTruthy q

theorem splitComplete_cons (c : Char) (cs : Str) :
    splitComplete (c :: cs) =
      if c = '\n' then ([] :: (splitComplete cs).1, (splitComplete cs).2)
      else
        match (splitComplete cs).1 with
        | [] => ([], c :: (splitComplete cs).2)
        | l :: ls => ((c :: l) :: ls, (splitComplete cs).2) := rfl

/-- Splitting off complete lines commutes with buffering: feeding `s ++ t`
equals feeding `s`, keeping its partial trailing segment, and feeding that
segment followed by `t`. -/
theorem splitComplete_append (s t : Str) :
    splitComplete (s ++ t) =
      ((splitComplete s).1 ++ (splitComplete ((splitComplete s).2 ++ t)).1,
       (splitComplete ((splitComplete s).2 ++ t)).2) := by
  induction s with
  | nil => simp [splitComplete]
  | cons c s' ih =>
    rw [List.cons_append, splitComplete_cons, splitComplete_cons c s', ih]
    by_cases hc : c = '\n'
    · simp [if_pos hc]
    · simp only [if_neg hc]
      cases hA : (splitComplete s').1 with
      | nil =>
        simp only [hA, List.nil_append]
        rw [List.cons_append, splitComplete_cons]
        simp only [if_neg hc]
      | cons l ls => simp [hA]

/-- Streaming decoding is a byte-level fold, so it splits over appended
chunks: the state carries across the boundary and the outputs concatenate. -/
theorem utf8DecStream_append (st : List Nat) (a b : List Nat) :
    utf8DecStream st (a ++ b) =
      ((utf8DecStream st a).1 ++ (utf8DecStream (utf8DecStream st a).2 b).1,
       (utf8DecStream (utf8DecStream st a).2 b).2) := by
  induction a generalizing st with
  | nil => simp [utf8DecStream]
  | cons x xs ih =>
    simp only [List.cons_append, utf8DecStream, List.append_eq]
    rw [ih]
    simp [List.append_assoc]

/-- Feeding two byte chunks to the streaming reassembler equals feeding
their concatenation. -/
theorem olFeed_append (st : ReasmSt) (a b : List Nat) :
    olFeed (olFeed st a) b = olFeed st (a ++ b) := by
  have h1 := utf8DecStream_append st.dec a b
  simp only [olFeed, h1]
  rw [show st.buf ++ ((utf8DecStream st.dec a).1 ++
        (utf8DecStream (utf8DecStream st.dec a).2 b).1) =
      st.buf ++ (utf8DecStream st.dec a).1 ++
        (utf8DecStream (utf8DecStream st.dec a).2 b).1 from by rw [List.append_assoc]]
  rw [splitComplete_append (st.buf ++ (utf8DecStream st.dec a).1)
        (utf8DecStream (utf8DecStream st.dec a).2 b).1]
  simp [List.append_assoc]

/-- Folding the streaming reassembler over remaining chunks equals one feed
of their concatenation. -/
theorem foldl_olFeed_join (rest : List (List Nat)) (a : List Nat) (st : ReasmSt) :
    List.foldl olFeed (olFeed st a) rest = olFeed st (a ++ rest.flatten) := by
  induction rest generalizing a st with
  | nil => simp [List.foldl]
  | cons b bs ih =>
    simp only [List.foldl, List.flatten]
    rw [olFeed_append, ih]
    simp [List.append_assoc]

/-- Claim C2 (amended): for every JSON-lines payload and every way of
splitting its bytes into chunks — including splits inside a multi-byte
character — the OllamaApiClient line reassembler, which decodes with the
streaming text decoder, produces exactly the state (complete line sequence,
partial trailing line and decoder state) of parsing the unsplit payload in
one piece.  The LocalLLMProvider reassembler decodes each chunk without the
stream flag and does not enjoy this invariance (see the counterexample). -/
theorem c2_streaming_reassembly_split_invariant (chunks : List (List Nat)) :
    olReassemble chunks = olReassemble [chunks.flatten] := by
  cases chunks with
  | nil => rfl
  | cons a rest =>
    show List.foldl olFeed (olFeed ⟨[], [], []⟩ a) rest = _
    rw [foldl_olFeed_join]
    rfl

/-- Claim C2 counterexample: the LocalLLMProvider reassembler applied to the
two-byte UTF-8 character U+00E9 followed by a newline gives different
complete lines when the payload is split between the two bytes of the
character than when it arrives in one piece, because each chunk is decoded
with a fresh non-streaming decoder that turns the dangling bytes into
replacement characters. -/
theorem c2_counterexample :
    llReassemble [[0xC3], [0xA9], [0x0A]] ≠ llReassemble [[0xC3, 0xA9, 0x0A]] := by
  decide

theorem hasSubstr_nil_pat (s : Str) : hasSubstr [] s = true := by
  cases s with
  | nil => rfl
  | cons c rest => simp [hasSubstr, List.isPrefixOf]

/-- Substring containment is preserved by prepending text. -/
theorem hasSubstr_append_right (pat a b : Str) (h : hasSubstr pat b = true) :
    hasSubstr pat (a ++ b) = true := by
  induction a with
  | nil => simpa using h
  | cons c a' ih =>
    simp only [List.cons_append, hasSubstr, Bool.or_eq_true]
    exact Or.inr ih

/-- Substring containment is preserved by appending text. -/
theorem hasSubstr_append_left (pat a b : Str) (h : hasSubstr pat a = true) :
    hasSubstr pat (a ++ b) = true := by
  induction a with
  | nil =>
    have : pat = [] := by
      cases pat with
      | nil => rfl
      | cons x xs => simp [hasSubstr] at h
    subst this
    exact hasSubstr_nil_pat b
  | cons c a' ih =>
    simp only [hasSubstr, Bool.or_eq_true] at h
    rcases h with h | h
    · have hp : pat <+: c :: a' := List.isPrefixOf_iff_prefix.mp h
      have : pat <+: (c :: a') ++ b := hp.trans (List.prefix_append _ _)
      simp only [List.cons_append, hasSubstr, Bool.or_eq_true]
      exact Or.inl (List.isPrefixOf_iff_prefix.mpr (by simpa using this))
    · simp only [List.cons_append, hasSubstr, Bool.or_eq_true]
      exact Or.inr (ih h)

/-- Folding the incremental `translate` thinking filter over chunks whose
concatenation is free of thinking-tag markers appends the concatenation to
the accumulator and leaves the suppressing flag down. -/
theorem translateFilter_tagfree_aux (chunks : List Str) (acc : Str)
    (ho : hasSubstr "<think>".toList chunks.flatten = false)
    (hc : hasSubstr "</think>".toList chunks.flatten = false) :
    List.foldl translateStep (false, acc) chunks = (false, acc ++ chunks.flatten) := by
  induction chunks generalizing acc with
  | nil => simp
  | cons c cs ih =>
    simp only [List.flatten_cons] at ho hc
    have hoc : hasSubstr "<think>".toList c = false := by
      cases h : hasSubstr "<think>".toList c with
      | false => rfl
      | true => rw [hasSubstr_append_left _ _ _ h] at ho; exact absurd ho (by simp)
    have hos : hasSubstr "<think>".toList cs.flatten = false := by
      cases h : hasSubstr "<think>".toList cs.flatten with
      | false => rfl
      | true => rw [hasSubstr_append_right _ _ _ h] at ho; exact absurd ho (by simp)
    have hcc : hasSubstr "</think>".toList c = false := by
      cases h : hasSubstr "</think>".toList c with
      | false => rfl
      | true => rw [hasSubstr_append_left _ _ _ h] at hc; exact absurd hc (by simp)
    have hcs : hasSubstr "</think>".toList cs.flatten = false := by
      cases h : hasSubstr "</think>".toList cs.flatten with
      | false => rfl
      | true => rw [hasSubstr_append_right _ _ _ h] at hc; exact absurd hc (by simp)
    simp only [List.foldl, translateStep, hoc, hcc, if_false, Bool.false_eq_true]
    rw [ih (acc ++ c) hos hcs]
    simp [List.append_assoc]

/-- Claim C3 (amended): the incremental thinking filter of `translate` is
splitting-invariant only on payloads free of thinking-tag markers, where the
visible output is the full concatenation.  When a marker is present, the
whole chunk containing `<think>` is suppressed — including any visible text
after the closing tag in the same chunk — so the single-chunk input
containing skip-then-visible emits nothing at all (see the
counterexample). -/
theorem c3_tagfree_chunking_invariant (chunks : List Str)
    (ho : hasSubstr "<think>".toList chunks.flatten = false)
    (hc : hasSubstr "</think>".toList chunks.flatten = false) :
    translateFilter chunks = translateFilter [chunks.flatten] := by
  unfold translateFilter
  rw [translateFilter_tagfree_aux chunks [] ho hc]
  rw [show List.foldl translateStep (false, []) [chunks.flatten] =
      translateStep (false, []) chunks.flatten from rfl]
  have ho2 : hasSubstr ['<', 't', 'h', 'i', 'n', 'k', '>'] chunks.flatten = false := ho
  have hc2 : hasSubstr ['<', '/', 't', 'h', 'i', 'n', 'k', '>'] chunks.flatten = false := hc
  simp [translateStep, ho2, hc2]

/-- Witness for claim C3: two marker-free chunks produce the same visible
output as their concatenation fed in one piece. -/
theorem c3_witness :
    hasSubstr "<think>".toList ["ab".toList, "cd".toList].flatten = false ∧
    hasSubstr "</think>".toList ["ab".toList, "cd".toList].flatten = false ∧
    translateFilter ["ab".toList, "cd".toList] = translateFilter ["abcd".toList] := by
  refine ⟨by decide, by decide, ?_⟩
  have h := c3_tagfree_chunking_invariant ["ab".toList, "cd".toList] (by decide) (by decide)
  simpa using h

/-- Claim C3 counterexample: the single chunk carrying a complete thinking
block followed by visible text emits nothing — not the text after the
closing tag — while the same payload split after the closing tag emits the
visible text, so the filter is not splitting-invariant and the claimed
single-chunk output is wrong. -/
theorem c3_counterexample :
    translateFilter ["<think>skip</think>visible".toList] = [] ∧
    translateFilter ["<think>skip</think>".toList, "visible".toList] = "visible".toList ∧
    ollamaFilterThinkingContent "<think>skip</think>visible".toList = "visible".toList ∧
    "visible".toList ≠ ([] : Str) := by
  refine ⟨by decide, by decide, by decide, by decide⟩

/-- Claim C9 (amended): the `OllamaProvider` thinking-content filter returns
the single-space string whenever tag removal and trimming leave nothing
(including the empty input).  The `LocalLLMProvider` filters have no such
fallback and return the empty string in that case (see the
counterexample). -/
theorem c9_ollama_filter_space_on_empty (s : Str)
    (h : jsTrim (stripTags true
      [("<thinking>".toList, "</thinking>".toList),
       ("<think>".toList, "</think>".toList),
       ("<translate_input>".toList, "</translate_input>".toList)] s) = []) :
    ollamaFilterThinkingContent s = " ".toList := by
  simp only [ollamaFilterThinkingContent, h]
  split <;> rfl

/-- Witness for claim C9: a complete thinking block filters to nothing and
the Ollama provider filter returns the single space. -/
theorem c9_witness :
    jsTrim (stripTags true
      [("<thinking>".toList, "</thinking>".toList),
       ("<think>".toList, "</think>".toList),
       ("<translate_input>".toList, "</translate_input>".toList)]
      "<thinking>x</thinking>".toList) = [] ∧
    ollamaFilterThinkingContent "<thinking>x</thinking>".toList = " ".toList :=
  ⟨by decide, c9_ollama_filter_space_on_empty "<thinking>x</thinking>".toList (by decide)⟩

/-- Claim C9 counterexample: the `LocalLLMProvider` thinking filter cited by
the claim returns the empty string — not a single space — on an input whose
content is entirely a thinking block. -/
theorem c9_counterexample :
    llFilterThinkingRegex "<thinking>x</thinking>".toList = [] ∧
    ([] : Str) ≠ " ".toList := by
  refine ⟨by decide, by decide⟩

/-- Claim C8 (code bug): in the whole-line thinking filter, a line that both
opens and closes a thinking tag hits the `continue` before the closing-tag
check, so the filter stays in the suppressing state and the following lines
are swallowed: of the input lines hello, a one-line thinking block, and
world, only hello survives. -/
theorem c8_one_line_think_stays_suppressing :
    llFilterThinkingLines "hello\n<think>skip</think>\nworld".toList = "hello".toList ∧
    llFilterThinkingLines "hello\nworld".toList = "hello\nworld".toList := by
  refine ⟨by decide, by decide⟩

/-- Claim C4: a line that is not valid JSON is a complete no-op for the
stream-line processing loop — it produces zero consumer events, raises
nothing to the consumer, changes no state, and the remaining lines are
processed exactly as if the malformed line were absent. -/
theorem c4_malformed_line_noop (p : Str → Option LLResp) (bad : Str) (ls : List Str)
    (f : Bool) (t : Nat) (h : p bad = none) :
    procLineList p (bad :: ls) f t = procLineList p ls f t := by
  have hh : handleStreamLine p bad f = ([], false, 0) := by
    unfold handleStreamLine
    split
    · rfl
    · rw [h]
  simp only [procLineList, h, hh]
  simp

/-- Witness for claim C4: the malformed line is skipped silently and the
following done record yields exactly the single completion signal. -/
theorem c4_witness :
    pFix lineBad = none ∧
    procLineList pFix [lineBad, lineDone] true 0 = procLineList pFix [lineDone] true 0 ∧
    procLineList pFix [lineDone] true 0 = ([([], true)], false, 0, []) :=
  ⟨by decide, c4_malformed_line_noop pFix lineBad [lineDone] true 0 (by decide), by decide⟩

/-- Claim C6 (amended): a decoded record with a non-empty error field (and a
non-true done flag) contributes exactly one consumer call — the non-fatal
inline notice carrying the error text verbatim — and nothing else: its
content fields are never emitted, state is unchanged, and processing
continues with the remaining lines.  A trailing error record in the final
partial buffer is likewise reported by the inline notice and not by the
terminal event, because the rethrow after the notice is swallowed by the
surrounding catch (see the counterexample). -/
theorem c6_error_record_inline_notice (p : Str → Option LLResp) (line : Str) (r : LLResp)
    (ls : List Str) (f : Bool) (t : Nat) (hp : p line = some r)
    (he : errTruthy r = true) (hd : doneTruthy r = false) :
    procLineList p (line :: ls) f t =
      ((errNotice r, false) :: (procLineList p ls f t).1, (procLineList p ls f t).2) := by
  have hh : handleStreamLine p line f = ([], false, 0) := by
    unfold handleStreamLine
    split
    · rfl
    · rw [hp]
      simp [he]
  simp only [procLineList, hp, hh, hd, he]
  simp

/-- Witness for claim C6: a mid-stream record carrying only an error field
yields exactly the inline error notice. -/
theorem c6_witness :
    pFix lineErrBoom = some recErrBoom ∧
    errTruthy recErrBoom = true ∧
    doneTruthy recErrBoom = false ∧
    procLineList pFix [lineErrBoom] true 0 =
      ((errNotice recErrBoom, false) :: (procLineList pFix [] true 0).1,
       (procLineList pFix [] true 0).2) :=
  ⟨by decide, by decide, by decide,
   c6_error_record_inline_notice pFix lineErrBoom recErrBoom [] true 0
     (by decide) (by decide) (by decide)⟩

/-- Claim C6 counterexample: when the error record is the last record of the
stream (arriving without a trailing newline), the stream's calls are the
non-fatal inline notice followed by the plain terminal completion call — the
error is not surfaced as the terminal Error. -/
theorem c6_counterexample :
    completionsModel pFix [] (FetchOut.resp true 200 [] [ReadEv.chunk lineErrBoom]) =
      [(errNotice recErrBoom, false), ([], true)] := by
  decide

/-- Claim C10 (amended): when every line before it is a no-op for the line
loop (no events, no state change, no break and no error notice), the first
processed record with non-empty filtered content is delivered as the very
first call, prefixed with exactly one space; the running token count passed
to the remaining lines is the full prefixed length, space included, and the
remaining lines are processed with the first-chunk flag down, so later
deltas are unprefixed.  An inline error notice from an earlier error record
can precede the prefixed delta (see the counterexample). -/
theorem c10_first_content_delta_space_prefixed (p : Str → Option LLResp)
    (pre : List Str) (line : Str) (r : LLResp) (m fc : Str) (post : List Str)
    (hpre : ∀ l ∈ pre, handleStreamLine p l true = ([], false, 0) ∧ inertOpt (p l) = true)
    (hln : jsTrim line ≠ [])
    (hp : p line = some r) (he : errTruthy r = false) (hd : doneTruthy r = false)
    (hm : r.message = some m) (hm0 : m ≠ [])
    (hfc : llFilterThinkingLines m = fc) (hfc0 : fc ≠ []) :
    procLineList p (pre ++ line :: post) true 0 =
      ((' ' :: fc, false) :: (procLineList p post false (fc.length + 1)).1,
       (procLineList p post false (fc.length + 1)).2) := by
  have hline : handleStreamLine p line true = ([(' ' :: fc, false)], true, fc.length + 1) := by
    unfold handleStreamLine
    rw [if_neg hln, hp]
    simp only [he, hd, Bool.false_eq_true, if_false, hm]
    rw [if_neg hm0, hfc]
    rw [if_neg hfc0]
    simp
  induction pre with
  | nil =>
    simp only [List.nil_append, procLineList, hline, hp, hd, he]
    simp
  | cons l pre' ih =>
    have h1 := (hpre l (by simp)).1
    have h2 := (hpre l (by simp)).2
    have ih' := ih (fun x hx => hpre x (by simp [hx]))
    simp only [List.cons_append, procLineList, h1]
    cases hq : p l with
    | none => simpa [hq] using ih'
    | some q =>
      rw [hq] at h2
      simp only [inertOpt, Bool.and_eq_true, Bool.not_eq_true'] at h2
      simp [hq, h2.1, h2.2, ih']

/-- Witness for claim C10: after a blank line, the first content record's
filtered text arrives as the first call with exactly one leading space and
its full length, space included, becomes the running token count. -/
theorem c10_witness :
    (∀ l ∈ [([] : Str)],
      handleStreamLine pFix l true = ([], false, 0) ∧ inertOpt (pFix l) = true) ∧
    pFix lineMsgHi = some recMsgHi ∧
    llFilterThinkingLines "hi".toList = "hi".toList ∧
    procLineList pFix ([[]] ++ [lineMsgHi]) true 0 =
      ((' ' :: "hi".toList, false) :: (procLineList pFix [] false ("hi".toList.length + 1)).1,
       (procLineList pFix [] false ("hi".toList.length + 1)).2) :=
  ⟨by decide, by decide, by decide,
   c10_first_content_delta_space_prefixed pFix [[]] lineMsgHi recMsgHi
     "hi".toList "hi".toList []
     (by decide) (by decide) (by decide) (by decide) (by decide) (by decide)
     (by decide) (by decide) (by decide)⟩

/-- Claim C10 counterexample: when an error record precedes the first
processed content record, the first text delivered to the consumer is the
inline error notice, not the space-prefixed filtered content — which arrives
only second. -/
theorem c10_counterexample :
    completionsModel pFix []
        (FetchOut.resp true 200 [] [ReadEv.chunk (lineErrE ++ '\n' :: lineMsgHi ++ ['\n'])]) =
      [(errNotice recErrE, false), (' ' :: "hi".toList, false), ([], true)] := by
  decide

/-- Claim C5 (amended): a completions request answered with a non-success
HTTP status produces exactly two terminal calls — the friendly provider
message (mapping the model-not-found body text and the 404 and 500 statuses
to friendlier wording) followed by the outer catch's Error-prefixed call —
and the body read sequence is never consumed: the result does not depend on
`reads`, so the streaming body reader is never opened. -/
theorem c5_http_error_two_calls (p : Str → Option LLResp) (m : Str) (status : Nat)
    (errorText : Str) (reads : List ReadEv) :
    completionsModel p m (FetchOut.resp false status errorText reads) =
      [("错误: ".toList ++ friendlyErr status errorText m, true),
       ("Error: ".toList ++ friendlyErr status errorText m, true)] := by
  simp [completionsModel]

/-- Claim C5 counterexample: an HTTP 404 response yields two error calls,
not exactly one error event. -/
theorem c5_counterexample :
    (completionsModel pFix []
        (FetchOut.resp false 404 "Not Found".toList [ReadEv.chunk lineMsgHi])).length = 2 ∧
    completionsModel pFix []
        (FetchOut.resp false 404 "Not Found".toList [ReadEv.chunk lineMsgHi]) =
      [("错误: ".toList ++ friendlyErr 404 "Not Found".toList [], true),
       ("Error: ".toList ++ friendlyErr 404 "Not Found".toList [], true)] := by
  refine ⟨by decide, by decide⟩

theorem getLast?_append_pair {α : Type} (l : List α) (a b : α) :
    (l ++ [a, b]).getLast? = some b := by
  rw [show l ++ [a, b] = (l ++ [a]) ++ [b] from by simp]
  exact List.getLast?_concat _

/-- Claim C1 (amended): on every finite input — fetch failure or
cancellation before any data, non-success status, any sequence of chunks, a
read error or cancellation at any point — the driver delivers at least one
terminal call and the last call delivered is terminal.  The stronger
exactly-one property fails: a done record triggers the completion call both
in `handleStreamLine` and again in the finally block, and error paths pair
the finally block's completion with the catch's error call (see the
counterexample). -/
theorem c1_last_call_terminal (p : Str → Option LLResp) (m : Str) (fo : FetchOut) :
    ∃ txt, (completionsModel p m fo).getLast? = some (txt, true) := by
  cases fo with
  | netErr msg => exact ⟨"Error: ".toList ++ msg, rfl⟩
  | resp ok status errorText reads =>
    cases ok with
    | false => exact ⟨"Error: ".toList ++ friendlyErr status errorText m, rfl⟩
    | true =>
      simp only [completionsModel, if_true]
      cases hr : (runReads p reads ⟨[], true, 0⟩).2.2 with
      | none =>
        dsimp only
        exact ⟨[], List.getLast?_concat _⟩
      | some msg =>
        dsimp only
        exact ⟨"Error: ".toList ++ msg, getLast?_append_pair _ _ _⟩

/-- Claim C1 counterexample: a well-formed stream consisting of a single
done record produces two terminal calls — one from `handleStreamLine` and
one from the finally block — so the terminal call is not unique. -/
theorem c1_counterexample :
    completionsModel pFix [] (FetchOut.resp true 200 [] [ReadEv.chunk (lineDone ++ ['\n'])]) =
      [([], true), ([], true)] ∧
    (completionsModel pFix []
        (FetchOut.resp true 200 [] [ReadEv.chunk (lineDone ++ ['\n'])])).countP
      (fun c => c.2) = 2 := by
  refine ⟨by decide, by decide⟩

theorem countWs_append (a b : List WsEvt) : countWs (a ++ b) = countWs a + countWs b := by
  unfold countWs
  rw [List.countP_append]

theorem transformChunk_collected (pid : Str) (c : WsChunk) :
    countWs (transformChunk pid true c).1 = 0 ∧ (transformChunk pid true c).2 = true := by
  unfold transformChunk
  cases c.message with
  | none => exact ⟨rfl, rfl⟩
  | some msg =>
    dsimp only
    rw [show collectWebSearchData pid true c msg = none from rfl]
    cases c.done <;> simp [countWs]

theorem runTransformAux_collected (pid : Str) (chunks : List WsChunk) :
    countWs (runTransformAux pid true chunks) = 0 := by
  induction chunks with
  | nil => rfl
  | cons c cs ih =>
    have h := transformChunk_collected pid c
    simp only [runTransformAux]
    rw [countWs_append, h.2, ih, h.1]

theorem countWs_nil : countWs [] = 0 := rfl

theorem countWs_cons_ws (r : WsResults) (src : WsSource) (l : List WsEvt) :
    countWs (WsEvt.webSearchComplete r src :: l) = countWs l + 1 := by
  simp [countWs, List.countP_cons]

theorem countWs_cons_td (t : Str) (l : List WsEvt) :
    countWs (WsEvt.textDelta t :: l) = countWs l := by
  simp [countWs, List.countP_cons]

theorem countWs_cons_done (l : List WsEvt) :
    countWs (WsEvt.llmComplete :: l) = countWs l := by
  simp [countWs, List.countP_cons]

theorem runTransformAux_le_one (pid : Str) (chunks : List WsChunk) (collected : Bool) :
    countWs (runTransformAux pid collected chunks) ≤ 1 := by
  induction chunks generalizing collected with
  | nil => simp [runTransformAux, countWs]
  | cons c cs ih =>
    cases collected with
    | true =>
      rw [runTransformAux_collected]
      exact Nat.zero_le 1
    | false =>
      simp only [runTransformAux]
      rw [countWs_append]
      unfold transformChunk
      cases hm : c.message with
      | none =>
        simpa [countWs_nil] using ih false
      | some msg =>
        dsimp only
        cases hw : collectWebSearchData pid false c msg with
        | none =>
          cases hd : c.done <;>
            simp [countWs_append, countWs_cons_td, countWs_cons_done, countWs_nil] <;>
            exact ih false
        | some rs =>
          have h0 := runTransformAux_collected pid cs
          cases hd : c.done <;>
            simp [countWs_append, countWs_cons_ws, countWs_cons_td, countWs_cons_done,
              countWs_nil, h0]

/-- Claim C7: over any whole response stream, at most one
web-search-complete event is emitted, and the collection routine equals
first-match evaluation of the ordered specification rule table — native
url-citation annotations first, then the Grok, Perplexity and OpenRouter
citation shapes, then the Zhipu and Hunyuan web-search shapes — with the
provider identity gating the provider-specific rules and selecting the
source tag. -/
theorem c7_websearch_at_most_once_and_rule_order :
    (∀ (pid : Str) (chunks : List WsChunk), countWs (runTransform pid chunks) ≤ 1) ∧
    (∀ (pid : Str) (c : WsChunk) (msg : WsMsg),
      collectWebSearchData pid false c msg = specFirstMatch pid c msg) := by
  constructor
  · intro pid chunks
    exact runTransformAux_le_one pid chunks false
  · intro pid c msg
    simp only [collectWebSearchData, specFirstMatch, wsSpecRules, List.find?]
    cases h1 : annPred c msg <;> simp only [h1] <;> try rfl
    cases h2 : (decide (pid = "grok".toList) && c.citations.isSome) <;>
      simp only [h2] <;> try rfl
    cases h3 : (decide (pid = "perplexity".toList) && c.citations.isSome
        && decide ((c.citations.getD []).length > 0)) <;> simp only [h3] <;> try rfl
    cases h4 : (decide (pid = "openrouter".toList) && c.citations.isSome
        && decide ((c.citations.getD []).length > 0)) <;> simp only [h4] <;> try rfl
    cases h5 : (decide (pid = "zhipu".toList) && c.webSearch.isSome) <;>
      simp only [h5] <;> try rfl
    cases h6 : (decide (pid = "hunyuan".toList) && c.searchResults.isSome) <;>
      simp only [h6] <;> rfl
